import Mathlib

/-!
Verification of the layered virtual-file subsystem of rom-properties.

The definitions below are a shallow embedding of:
* `src/librpbase/file/RpFile_stdio.cpp` — the stdio-backed `RpFile`
  (open/init with transparent gzip detection, read, write, seek, tell,
  truncate, size, close);
* `src/libromdata/file/IRpFile.cpp` — the `getc`/`ungetc` convenience
  operations implemented on top of read/seek/tell;
* the `SparseBlockReader` logical-to-physical read algorithm, whose
  implementation file (SparseDiscReader.cpp) is not among the sources —
  only the `WuxReader::getPhysBlockAddr` declaration is — so it is
  modelled from the design specification.

Machine integers are modelled as `Nat`/`Int`; byte streams as `List Nat`.
The stdio stream and the zlib gz stream are modelled as a byte list plus
a current position.  zlib's inflate output is abstracted as an oracle
function from raw to decompressed bytes.
-/

namespace RomProps

/-! ## FileMode constants

Modelled from the spec: `RpFile.hpp` (which defines the `FileMode` enum)
is not among the sources.  The constants are reconstructed from the
cases of `RpFilePrivate::mode_to_str` (RpFile_stdio.cpp lines 136-150:
`FM_OPEN_READ`, `FM_OPEN_WRITE`, `FM_CREATE|FM_READ`, `FM_CREATE_WRITE`
under `FM_MODE_MASK`) and the spec's mode set {open-existing-read,
open-existing-read-write, create-truncate-read-write} plus the
gzip-aware read mode `FM_OPEN_READ_GZ`. -/

def FM_READ : Nat := 0
def FM_WRITE : Nat := 1
def FM_CREATE : Nat := 2
def FM_MODE_MASK : Nat := 3
def FM_OPEN_READ : Nat := 0
def FM_OPEN_WRITE : Nat := 1
def FM_CREATE_WRITE : Nat := 3
def FM_GZIP_DECOMPRESS : Nat := 4
def FM_OPEN_READ_GZ : Nat := 4

/-- errno value EBADF (bad file descriptor), used by RpFile for both a
closed handle and a write attempt on a read-only handle. -/
def EBADF : Int := 9

/-- errno value EINVAL (invalid argument). -/
def EINVAL : Int := 22

/-- A buffered stdio stream (`FILE *`): the on-disk byte contents and
the current position (`ftello`). -/
structure CFile where
  contents : List Nat
  pos : Nat
deriving Repr, DecidableEq

/-- A zlib gz read stream (`gzFile` after `gzdopen(fd, "r")`): the
decompressed byte stream and the gz read position (`gztell`). -/
structure GzFile where
  contents : List Nat
  pos : Nat
deriving Repr, DecidableEq

/-- `RpFilePrivate` state (RpFile_stdio.cpp lines 75-99) together with
`IRpFile`'s `m_lastError` side channel: the stdio handle (`none` when
the open failed or `close()` was called), the `FileMode`, the gz handle
used for transparent decompression, and the cached uncompressed size
`gzsz` read from the gzip trailer. -/
structure RpFile where
  file : Option CFile
  mode : Nat
  gzfd : Option GzFile
  gzsz : Int
  lastError : Int
deriving Repr, DecidableEq

/-- `fread(ptr, 1, n, file)`: read up to `n` bytes at the current
position (short at EOF), advancing the position by the number of bytes
actually read. -/
def CFile.fread (st : CFile) (n : Nat) : List Nat × CFile :=
  let bytes := (st.contents.drop st.pos).take n
  (bytes, { st with pos := st.pos + bytes.length })

/-- `RpFile::isOpen` (RpFile_stdio.cpp lines 386-390): true iff the
stdio handle is non-null. -/
def RpFile.isOpen (f : RpFile) : Bool :=
  f.file.isSome

/-- `RpFile::close` (RpFile_stdio.cpp lines 395-406): close the gz
stream and the stdio stream, nulling both handles. -/
def RpFile.close (f : RpFile) : RpFile :=
  { f with gzfd := none, file := none }

/-- `RpFile::read` (RpFile_stdio.cpp lines 414-440): EBADF on a null
handle; otherwise read from the gz stream when decompression is
engaged, else `fread` from the stdio stream.  Returns the bytes read
(the C function returns their count) and the new state. -/
def RpFile.read (f : RpFile) (n : Nat) : List Nat × RpFile :=
  match f.file with
  | none => ([], { f with lastError := EBADF })
  | some st =>
    match f.gzfd with
    | some gz =>
      let bytes := (gz.contents.drop gz.pos).take n
      (bytes, { f with gzfd := some { gz with pos := gz.pos + bytes.length } })
    | none =>
      let r := st.fread n
      (r.1, { f with file := some r.2 })

/-- `RpFile::write` (RpFile_stdio.cpp lines 448-464): EBADF when the
handle is null or the mode lacks `FM_WRITE`; otherwise `fwrite` at the
current position (overwriting in place, zero-filling any hole when the
position is past EOF, extending the file as needed). -/
def RpFile.write (f : RpFile) (data : List Nat) : Nat × RpFile :=
  match f.file with
  | none => (0, { f with lastError := EBADF })
  | some st =>
    if f.mode &&& FM_WRITE = 0 then
      (0, { f with lastError := EBADF })
    else
      let pre := st.contents.take st.pos ++ List.replicate (st.pos - st.contents.length) 0
      let post := st.contents.drop (st.pos + data.length)
      (data.length,
       { f with file := some ⟨pre ++ data ++ post, st.pos + data.length⟩ })

/-- `RpFile::seek` (RpFile_stdio.cpp lines 471-497): EBADF on a null
handle; `gzseek(gzfd, pos, SEEK_SET)` when decompression is engaged
(failing on a negative target, where the source stores `-EIO` in
`m_lastError`), else `fseeko(file, pos, SEEK_SET)` (EINVAL on a
negative target).  The trailing `fflush` has no observable effect in
this model. -/
def RpFile.seek (f : RpFile) (pos : Int) : Int × RpFile :=
  match f.file with
  | none => (-1, { f with lastError := EBADF })
  | some st =>
    match f.gzfd with
    | some gz =>
      if pos < 0 then
        (-1, { f with lastError := -5 })
      else
        (0, { f with gzfd := some { gz with pos := pos.toNat } })
    | none =>
      if pos < 0 then
        (-1, { f with lastError := EINVAL })
      else
        (0, { f with file := some { st with pos := pos.toNat } })

/-- `RpFile::tell` (RpFile_stdio.cpp lines 503-515): EBADF on a null
handle; `gztell` when decompression is engaged, else `ftello`. -/
def RpFile.tell (f : RpFile) : Int × RpFile :=
  match f.file with
  | none => (-1, { f with lastError := EBADF })
  | some st =>
    match f.gzfd with
    | some gz => ((gz.pos : Int), f)
    | none => ((st.pos : Int), f)

/-- `RpFile::truncate` (RpFile_stdio.cpp lines 522-566): EBADF when the
handle is null or the mode lacks `FM_WRITE`; EINVAL when the new size
is negative; otherwise `ftello`, `ftruncate` (shrinking, or extending
with zero bytes), then `fseeko` back to the new size when the old
position lay beyond it. -/
def RpFile.truncate (f : RpFile) (size : Int) : Int × RpFile :=
  match f.file with
  | none => (-1, { f with lastError := EBADF })
  | some st =>
    if f.mode &&& FM_WRITE = 0 then
      (-1, { f with lastError := EBADF })
    else if size < 0 then
      (-1, { f with lastError := EINVAL })
    else
      let pos := st.pos
      let newContents :=
        st.contents.take size.toNat ++
          List.replicate (size.toNat - st.contents.length) 0
      let newPos := if (pos : Int) > size then size.toNat else pos
      (0, { f with file := some ⟨newContents, newPos⟩ })

/-- `RpFile::size` (RpFile_stdio.cpp lines 574-602): EBADF on a null
handle; the cached trailer value `gzsz` when decompression is engaged;
otherwise save the current position (`ftello`), seek to the end, record
the end offset, and seek back to the saved position. -/
def RpFile.size (f : RpFile) : Int × RpFile :=
  match f.file with
  | none => (-1, { f with lastError := EBADF })
  | some st =>
    match f.gzfd with
    | some _ => (f.gzsz, f)
    | none =>
      let cur_pos := st.pos
      let st1 : CFile := { st with pos := st.contents.length }
      let end_pos := st1.pos
      let st2 : CFile := { st1 with pos := cur_pos }
      ((end_pos : Int), { f with file := some st2 })

/-- Little-endian load of a 16-bit value from a byte list (bytes are
reduced mod 256 as `fread` delivers octets). -/
def le16 (bs : List Nat) : Nat :=
  (bs.getD 0 0) % 256 + 256 * ((bs.getD 1 0) % 256)

/-- Little-endian load of a 32-bit value from a byte list. -/
def le32 (bs : List Nat) : Nat :=
  (bs.getD 0 0) % 256 + 256 * ((bs.getD 1 0) % 256) +
    65536 * ((bs.getD 2 0) % 256) + 16777216 * ((bs.getD 3 0) % 256)

/-- `RpFile::init` (RpFile_stdio.cpp lines 312-374) for a file whose
`fopen` succeeded, with on-disk bytes `contents`.  When the mode is
exactly `FM_OPEN_READ_GZ`: read the two magic bytes and compare the
little-endian load against `be16_to_cpu(0x1F8B) = 0x8B1F`; seek to the
end to get `real_sz`; when `real_sz > 10+8`, load the last four bytes
as the little-endian trailer size and accept it when
`uncomp_sz >= real_sz-(10+8)`, caching it in `gzsz` and opening a gz
stream over the decompressed bytes (zlib's inflate output is abstracted
as the oracle `decompress`; `dup` and `gzdopen` are modelled as
succeeding).  Every exit path leaves the stdio position at 0: the
source rewinds before `gzdopen` on success and rewinds on fallback. -/
def openRpFile (contents : List Nat) (mode : Nat)
    (decompress : List Nat → List Nat) : RpFile :=
  let base : RpFile :=
    { file := some ⟨contents, 0⟩, mode := mode, gzfd := none,
      gzsz := -1, lastError := 0 }
  if mode = FM_OPEN_READ_GZ then
    if 2 ≤ contents.length ∧ le16 (contents.take 2) = 0x8B1F then
      let real_sz := contents.length
      if 18 < real_sz then
        let uncomp_sz := le32 ((contents.drop (real_sz - 4)).take 4)
        if real_sz - 18 ≤ uncomp_sz then
          { base with gzsz := (uncomp_sz : Int),
                      gzfd := some ⟨decompress contents, 0⟩ }
        else base
      else base
    else base
  else base

/-! ## SparseBlockReader

Modelled from the spec: the `SparseDiscReader` implementation is not
among the sources — only the `WuxReader::getPhysBlockAddr` declaration
(src/unnamed/part_000, lines 53-62, "0 == empty block; -1 == invalid
block index") is.  The block map, its `resolve` range guard and the
logical-to-physical read decomposition below follow §3 ("Block map")
and §4.4 of the design spec. -/

/-- Physical address of one logical block: `Missing` (index out of
range / invalid), `Empty` (reads as all-zero, no physical storage), or
`At off` (`block_size` bytes at physical byte offset `off`). -/
inductive PhysAddr where
  | Missing : PhysAddr
  | Empty : PhysAddr
  | At : Nat → PhysAddr
deriving Repr, DecidableEq

/-- Error raised when a read touches a block beyond the declared block
count. -/
inductive SbrError where
  | InvalidBlock : SbrError
deriving Repr, DecidableEq

/-- Modelled from the spec: a sparse block reader — block geometry, the
format-specific block-address table `map` for in-range indices, and the
backing store viewed as a byte oracle by physical offset. -/
structure SparseBlockReader where
  block_size : Nat
  block_count : Nat
  map : Nat → PhysAddr
  backing : Nat → Nat

/-- Modelled from the spec: resolve a logical block index, yielding
`Missing` for every index at or beyond `block_count` ("Missing (index
out of range)"). -/
def SparseBlockReader.resolve (r : SparseBlockReader) (i : Nat) : PhysAddr :=
  if i < r.block_count then r.map i else .Missing

/-- Modelled from the spec: one block's full contribution — `Missing`
fails the read with `InvalidBlock`; `Empty` synthesizes `block_size`
zero bytes without touching the backing store; `At p` reads the
`block_size` bytes at physical offset `p`. -/
def SparseBlockReader.blockBytes (r : SparseBlockReader) (i : Nat) :
    Except SbrError (List Nat) :=
  match r.resolve i with
  | .Missing => .error .InvalidBlock
  | .Empty => .ok (List.replicate r.block_size 0)
  | .At p => .ok ((List.range r.block_size).map (fun k => r.backing (p + k)))

/-- Modelled from the spec: the full contents of `k` consecutive blocks
starting at index `i`, concatenated; any `Missing` block fails the
whole read. -/
def SparseBlockReader.readBlocks (r : SparseBlockReader) :
    Nat → Nat → Except SbrError (List Nat)
  | _, 0 => .ok []
  | i, k + 1 =>
    match r.blockBytes i with
    | .error e => .error e
    | .ok b =>
      match r.readBlocks (i + 1) k with
      | .error e => .error e
      | .ok rest => .ok (b ++ rest)

/-- Modelled from the spec: a read of the logical range
`[offset, offset+n)` — decompose into the touched block indices
`first = offset / block_size` .. `last = (offset+n-1) / block_size`,
read each touched block in full (partial blocks at the extremes
included), and copy only the requested sub-range to the caller. -/
def SparseBlockReader.read (r : SparseBlockReader) (offset n : Nat) :
    Except SbrError (List Nat) :=
  if n = 0 then .ok []
  else
    let first := offset / r.block_size
    let last := (offset + n - 1) / r.block_size
    (r.readBlocks first (last - first + 1)).map
      (fun bs => (bs.drop (offset - first * r.block_size)).take n)

/-- `IRpFile::getc` (IRpFile.cpp lines 45-50): read one byte; return it
on success, EOF (-1) otherwise. -/
def RpFile.getc (f : RpFile) : Int × RpFile :=
  let r := f.read 1
  match r.1 with
  | [b] => ((b : Int), r.2)
  | _ => (-1, r.2)

/-- `IRpFile::ungetc` (IRpFile.cpp lines 62-74): a pure position
decrement — `tell()`, fail with -1 when the position is `<= 0`, else
`seek(pos - 1)`.  The pushed-back character argument is ignored by the
source. -/
def RpFile.ungetc (f : RpFile) : Int × RpFile :=
  let t := f.tell
  if t.1 ≤ 0 then
    (-1, t.2)
  else
    t.2.seek (t.1 - 1)

/-- A concrete 19-byte file carrying the gzip magic and a trailer value
of 100, used to witness the gzip theorems. -/
def gzSample : List Nat :=
  [0x1F, 0x8B] ++ List.replicate 13 0 ++ [100, 0, 0, 0]

/-- A concrete decompression oracle producing 100 bytes of value 7. -/
def gzOracle : List Nat → List Nat := fun _ => List.replicate 100 7

/-! ## Theorems -/

/-- Dropping `min n (length xs)` elements is the same as dropping `n`:
reading to a position that was clamped at EOF behaves like reading to
the requested position. -/
theorem drop_min_length {α : Type} (xs : List α) (n : Nat) :
    xs.drop (min n xs.length) = xs.drop n := by
  rcases le_total n xs.length with h | h
  · rw [min_eq_left h]
  · rw [min_eq_right h, List.drop_eq_nil_of_le (le_refl _),
      List.drop_eq_nil_of_le h]

/-- C7: for every file not opened for writing, `write(buffer, n)` fails
with the NotWritable error (realized by the source as errno EBADF) for
every buffer: it returns 0 bytes written, sets the last-error side
channel, and leaves the file contents and position (the `file` field)
unchanged. -/
theorem write_not_writable_spec (f : RpFile) (data : List Nat)
    (h : f.mode &&& FM_WRITE = 0) :
    f.write data = (0, { f with lastError := EBADF }) := by
  rcases hf : f.file with _ | st <;> simp [RpFile.write, hf, h]

/-- Witness for `write_not_writable_spec` at a concrete read-only
file. -/
theorem write_not_writable_spec_witness :
    RpFile.write
      { file := some ⟨[1, 2, 3], 0⟩, mode := FM_OPEN_READ, gzfd := none,
        gzsz := -1, lastError := 0 } [7, 8] =
    (0, { file := some ⟨[1, 2, 3], 0⟩, mode := FM_OPEN_READ, gzfd := none,
          gzsz := -1, lastError := EBADF }) :=
  write_not_writable_spec _ _ (by decide)

/-- C9: every operation on an RpFile whose stdio handle is null is
total and fails uniformly — `read` returns 0 bytes, `write` returns 0,
`seek`, `tell`, `truncate` and `size` return -1, and each sets
last-error to EBADF while the handle stays null and nothing else
changes. -/
theorem closed_handle_spec (f : RpFile) (n : Nat) (data : List Nat)
    (p ns : Int) (h : f.file = none) :
    f.read n = ([], { f with lastError := EBADF }) ∧
    f.write data = (0, { f with lastError := EBADF }) ∧
    f.seek p = (-1, { f with lastError := EBADF }) ∧
    f.tell = (-1, { f with lastError := EBADF }) ∧
    f.truncate ns = (-1, { f with lastError := EBADF }) ∧
    f.size = (-1, { f with lastError := EBADF }) := by
  refine ⟨?_, ?_, ?_, ?_, ?_, ?_⟩ <;>
    simp [RpFile.read, RpFile.write, RpFile.seek, RpFile.tell,
      RpFile.truncate, RpFile.size, h]

/-- Witness for `closed_handle_spec` at a concrete closed file. -/
theorem closed_handle_spec_witness :
    RpFile.read
      { file := none, mode := FM_OPEN_READ, gzfd := none, gzsz := -1,
        lastError := 0 } 4 =
    ([], { file := none, mode := FM_OPEN_READ, gzfd := none, gzsz := -1,
           lastError := EBADF }) :=
  (closed_handle_spec _ 4 [1] 0 0 (by decide)).1

/-- C10: for every writable open RpFile, `truncate(new_size)` with a
negative `new_size` returns -1 with last-error EINVAL and mutates
nothing: the `file` field (contents and position) is unchanged because
the argument is rejected before any filesystem mutation. -/
theorem truncate_negative_spec (f : RpFile) (st : CFile) (ns : Int)
    (hf : f.file = some st) (hw : f.mode &&& FM_WRITE ≠ 0) (hns : ns < 0) :
    f.truncate ns = (-1, { f with lastError := EINVAL }) := by
  simp [RpFile.truncate, hf, hw, hns]

/-- Witness for `truncate_negative_spec` at a concrete writable
file. -/
theorem truncate_negative_spec_witness :
    RpFile.truncate
      { file := some ⟨[1, 2, 3], 2⟩, mode := FM_OPEN_WRITE, gzfd := none,
        gzsz := -1, lastError := 0 } (-7) =
    (-1, { file := some ⟨[1, 2, 3], 2⟩, mode := FM_OPEN_WRITE, gzfd := none,
           gzsz := -1, lastError := EINVAL }) :=
  truncate_negative_spec _ ⟨[1, 2, 3], 2⟩ (-7) (by decide) (by decide)
    (by decide)

/-- C5: for every open RpFile, `size()` leaves the position unchanged —
`tell()` returns the same value before and after the call, in both the
plain-file case (position saved, seek to end, position restored) and
the gzip-decompression case (cached trailer value returned without
seeking). -/
theorem size_preserves_tell (f : RpFile) (st : CFile)
    (hf : f.file = some st) :
    (((f.size).2).tell).1 = (f.tell).1 := by
  cases hgz : f.gzfd <;> simp [RpFile.size, RpFile.tell, hf, hgz]

/-- Witness for `size_preserves_tell` at a concrete open file with a
nonzero position. -/
theorem size_preserves_tell_witness :
    let f : RpFile :=
      { file := some ⟨[5, 6, 7, 8], 2⟩, mode := FM_OPEN_READ, gzfd := none,
        gzsz := -1, lastError := 0 }
    (((f.size).2).tell).1 = (f.tell).1 :=
  size_preserves_tell _ ⟨[5, 6, 7, 8], 2⟩ (by decide)

/-- C6: `truncate(new_size)` on an open handle not opened for writing
fails with NotWritable (errno EBADF); on a writable handle (for which
the gz stream is necessarily absent, since the decompression mode is
read-only) with `new_size >= 0` it returns 0, and afterwards the
position equals the old position when that was `<= new_size` and equals
`new_size` (clamped) when the old position was beyond it. -/
theorem truncate_spec (f : RpFile) (st : CFile) (ns : Int)
    (hf : f.file = some st) :
    (f.mode &&& FM_WRITE = 0 →
       f.truncate ns = (-1, { f with lastError := EBADF })) ∧
    (f.gzfd = none → f.mode &&& FM_WRITE ≠ 0 → 0 ≤ ns →
       (f.truncate ns).1 = 0 ∧
       ((((f.truncate ns).2)).tell).1 =
         (if (st.pos : Int) ≤ ns then (st.pos : Int) else ns)) := by
  constructor
  · intro h
    simp [RpFile.truncate, hf, h]
  · intro hgz hw hns
    have hns2 : ¬ ns < 0 := not_lt.mpr hns
    refine ⟨by simp [RpFile.truncate, hf, hw, hns2], ?_⟩
    simp only [RpFile.truncate, hf, hw, hns2, if_false, ite_false,
      RpFile.tell]
    simp [hgz]
    split_ifs <;> omega

/-- Witness for `truncate_spec` at a concrete writable file whose
position lies beyond the new size (position clamped from 5 to 2). -/
theorem truncate_spec_witness :
    let f : RpFile :=
      { file := some ⟨[1, 2, 3, 4], 5⟩, mode := FM_OPEN_WRITE, gzfd := none,
        gzsz := -1, lastError := 0 }
    (f.truncate 2).1 = 0 ∧
      ((((f.truncate 2).2)).tell).1 = (if ((5 : Nat) : Int) ≤ 2 then ((5 : Nat) : Int) else 2) :=
  (truncate_spec _ ⟨[1, 2, 3, 4], 5⟩ 2 (by decide)).2
    (by decide) (by decide) (by decide)

/-- C4: for every open RpFile at position 0 with at least one byte
available, `getc` followed by `ungetc` restores the position to 0 and a
subsequent `getc` returns the same byte; `ungetc` while the position is
0 fails with -1 (a pure position decrement, no push-back buffer) and
leaves the state unchanged. -/
theorem getc_ungetc_spec (f : RpFile) (st : CFile)
    (hf : f.file = some st) (hpos : (f.tell).1 = 0)
    (havail : ((f.read 1).1).length = 1) :
    (((f.getc).2).ungetc).1 = 0 ∧
    (((((f.getc).2).ungetc).2).tell).1 = 0 ∧
    ((((((f.getc).2).ungetc).2)).getc).1 = (f.getc).1 ∧
    (f.ungetc).1 = -1 ∧
    (f.ungetc).2 = f := by
  cases hgz : f.gzfd with
  | some g =>
    have hp : g.pos = 0 := by
      have h0 := hpos
      simp [RpFile.tell, hf, hgz] at h0
      exact_mod_cast h0
    cases hc : g.contents with
    | nil =>
      simp [RpFile.read, hf, hgz, hc] at havail
    | cons b t =>
      refine ⟨?_, ?_, ?_, ?_, ?_⟩ <;>
        simp [RpFile.getc, RpFile.ungetc, RpFile.read, RpFile.tell,
          RpFile.seek, hf, hgz, hc, hp]
  | none =>
    have hp : st.pos = 0 := by
      have h0 := hpos
      simp [RpFile.tell, hf, hgz] at h0
      exact_mod_cast h0
    cases hc : st.contents with
    | nil =>
      simp [RpFile.read, CFile.fread, hf, hgz, hc, hp] at havail
    | cons b t =>
      refine ⟨?_, ?_, ?_, ?_, ?_⟩ <;>
        simp [RpFile.getc, RpFile.ungetc, RpFile.read, RpFile.tell,
          RpFile.seek, CFile.fread, hf, hgz, hc, hp]

/-- C1: for a file opened in the gzip-aware read mode `FM_OPEN_READ_GZ`
whose first two bytes are the gzip magic, with `file_size > 18` and
trailer value `U` (the little-endian load of the last four bytes): when
`U >= file_size - 18`, `size()` returns `U` and sequential reads return
the decompressed bytes; when the trailer check fails, decompression is
not engaged, `size()` returns the raw on-disk length and reads return
the raw compressed bytes. -/
theorem gzip_passthrough_spec (contents : List Nat)
    (decompress : List Nat → List Nat) (n₁ n₂ : Nat)
    (hmagic : contents.take 2 = [0x1F, 0x8B])
    (hlen : 18 < contents.length) :
    (contents.length - 18 ≤
        le32 ((contents.drop (contents.length - 4)).take 4) →
      ((openRpFile contents FM_OPEN_READ_GZ decompress).size).1 =
        (le32 ((contents.drop (contents.length - 4)).take 4) : Int) ∧
      ((openRpFile contents FM_OPEN_READ_GZ decompress).read n₁).1 =
        (decompress contents).take n₁ ∧
      ((((openRpFile contents FM_OPEN_READ_GZ decompress).read n₁).2).read
          n₂).1 =
        ((decompress contents).drop n₁).take n₂) ∧
    (le32 ((contents.drop (contents.length - 4)).take 4) <
        contents.length - 18 →
      ((openRpFile contents FM_OPEN_READ_GZ decompress).size).1 =
        (contents.length : Int) ∧
      ((openRpFile contents FM_OPEN_READ_GZ decompress).read n₁).1 =
        contents.take n₁ ∧
      ((((openRpFile contents FM_OPEN_READ_GZ decompress).read n₁).2).read
          n₂).1 =
        (contents.drop n₁).take n₂) := by
  have h2 : 2 ≤ contents.length := by
    have hl := congrArg List.length hmagic
    simp [List.length_take] at hl
    omega
  have hle16 : le16 (contents.take 2) = 0x8B1F := by
    rw [hmagic]; rfl
  constructor
  · intro hU
    have hopen : openRpFile contents FM_OPEN_READ_GZ decompress =
        { file := some ⟨contents, 0⟩, mode := FM_OPEN_READ_GZ,
          gzfd := some ⟨decompress contents, 0⟩,
          gzsz := (le32 ((contents.drop (contents.length - 4)).take 4) : Int),
          lastError := 0 } := by
      simp [openRpFile, h2, hle16, hlen, hU]
    refine ⟨?_, ?_, ?_⟩ <;>
      simp [hopen, RpFile.size, RpFile.read, List.length_take,
        drop_min_length]
  · intro hU
    have hU2 : ¬ (contents.length - 18 ≤
        le32 ((contents.drop (contents.length - 4)).take 4)) :=
      not_le.mpr hU
    have hopen : openRpFile contents FM_OPEN_READ_GZ decompress =
        { file := some ⟨contents, 0⟩, mode := FM_OPEN_READ_GZ,
          gzfd := none, gzsz := -1, lastError := 0 } := by
      simp [openRpFile, h2, hle16, hlen, hU2]
    refine ⟨?_, ?_, ?_⟩ <;>
      simp [hopen, RpFile.size, RpFile.read, CFile.fread, List.length_take,
        drop_min_length]

/-- Witness for `gzip_passthrough_spec` at a concrete 19-byte gzip
file with trailer value 100 (so `size()` is 100 and a 5-byte read
returns the oracle's decompressed bytes). -/
theorem gzip_passthrough_spec_witness :
    ((openRpFile gzSample FM_OPEN_READ_GZ gzOracle).size).1 = 100 ∧
    ((openRpFile gzSample FM_OPEN_READ_GZ gzOracle).read 5).1 =
      List.replicate 5 7 := by
  have h := (gzip_passthrough_spec gzSample gzOracle 5 7 (by decide)
    (by decide)).1 (by decide)
  exact ⟨h.1.trans (by decide), (h.2.1).trans (by decide)⟩

/-- Mapping over a successful `Except` value applies the function to
the payload. -/
theorem except_map_ok {α β ε : Type} (g : α → β) (x : α) :
    (Except.ok x : Except ε α).map g = .ok (g x) := rfl

/-- Mapping over a failed `Except` value keeps the error. -/
theorem except_map_error {α β ε : Type} (g : α → β) (e : ε) :
    (Except.error e : Except ε α).map g = .error e := rfl

/-- One-step unfolding of `SparseBlockReader.read`. -/
theorem read_unfold (r : SparseBlockReader) (offset n : Nat) :
    r.read offset n =
      if n = 0 then .ok []
      else
        (r.readBlocks (offset / r.block_size)
            ((offset + n - 1) / r.block_size - offset / r.block_size +
              1)).map
          (fun bs =>
            (bs.drop (offset - offset / r.block_size * r.block_size)).take
              n) := rfl

/-- Unfolding of `SparseBlockReader.readBlocks` at zero blocks. -/
theorem readBlocks_zero (r : SparseBlockReader) (i : Nat) :
    r.readBlocks i 0 = .ok [] := rfl

/-- One-step unfolding of `SparseBlockReader.readBlocks`. -/
theorem readBlocks_succ (r : SparseBlockReader) (i k : Nat) :
    r.readBlocks i (k + 1) =
      match r.blockBytes i with
      | .error e => .error e
      | .ok b =>
        match r.readBlocks (i + 1) k with
        | .error e => .error e
        | .ok rest => .ok (b ++ rest) := rfl

/-- Composition step for `readBlocks`: when the head block and the run
of blocks after it both succeed, the whole run succeeds with the
concatenation. -/
theorem readBlocks_succ_ok (r : SparseBlockReader) (i k : Nat)
    (b rest : List Nat) (h1 : r.blockBytes i = .ok b)
    (h2 : r.readBlocks (i + 1) k = .ok rest) :
    r.readBlocks i (k + 1) = .ok (b ++ rest) := by
  rw [readBlocks_succ, h1, h2]

/-- Full contents of the three blocks of the C2 reader: block at `X`,
empty block, block at `Y`, concatenated. -/
theorem readBlocks_three (f : Nat → Nat) (X Y : Nat) :
    SparseBlockReader.readBlocks
      ⟨512, 3,
       fun i => if i = 0 then .At X else if i = 1 then .Empty else .At Y,
       f⟩ 0 3 =
      .ok ((List.range 512).map (fun k => f (X + k)) ++
           (List.replicate 512 0 ++
            ((List.range 512).map (fun k => f (Y + k)) ++ []))) := by
  have b0 : SparseBlockReader.blockBytes
      ⟨512, 3,
       fun i => if i = 0 then .At X else if i = 1 then .Empty else .At Y,
       f⟩ 0 = .ok ((List.range 512).map (fun k => f (X + k))) := rfl
  have b1 : SparseBlockReader.blockBytes
      ⟨512, 3,
       fun i => if i = 0 then .At X else if i = 1 then .Empty else .At Y,
       f⟩ 1 = .ok (List.replicate 512 0) := rfl
  have b2 : SparseBlockReader.blockBytes
      ⟨512, 3,
       fun i => if i = 0 then .At X else if i = 1 then .Empty else .At Y,
       f⟩ 2 = .ok ((List.range 512).map (fun k => f (Y + k))) := rfl
  have h2 := readBlocks_succ_ok _ 2 0 _ [] b2 (readBlocks_zero _ 3)
  have h1 := readBlocks_succ_ok _ 1 1 _ _ b1 h2
  exact readBlocks_succ_ok _ 0 2 _ _ b0 h1

/-- The C2 read request decomposed by `read_unfold` (the request is
nonempty, so the guard is skipped). -/
theorem read_decompose (f : Nat → Nat) (X Y : Nat) :
    SparseBlockReader.read
      ⟨512, 3,
       fun i => if i = 0 then .At X else if i = 1 then .Empty else .At Y,
       f⟩ 256 1024 =
    (SparseBlockReader.readBlocks
      ⟨512, 3,
       fun i => if i = 0 then .At X else if i = 1 then .Empty else .At Y,
       f⟩ (256 / 512) ((256 + 1024 - 1) / 512 - 256 / 512 + 1)).map
      (fun bs => (bs.drop (256 - 256 / 512 * 512)).take 1024) := by
  rw [read_unfold, if_neg (by decide : ¬ (1024 = 0))]

/-- The touched block range of the C2 read request is blocks 0..2, and
the requested sub-range starts at intra-block offset 256. -/
theorem read_touched (f : Nat → Nat) (X Y : Nat) :
    (SparseBlockReader.readBlocks
      ⟨512, 3,
       fun i => if i = 0 then .At X else if i = 1 then .Empty else .At Y,
       f⟩ (256 / 512) ((256 + 1024 - 1) / 512 - 256 / 512 + 1)).map
      (fun bs => (bs.drop (256 - 256 / 512 * 512)).take 1024) =
    (SparseBlockReader.readBlocks
      ⟨512, 3,
       fun i => if i = 0 then .At X else if i = 1 then .Empty else .At Y,
       f⟩ 0 3).map
      (fun bs => (bs.drop 256).take 1024) := by
  simp only [Nat.reduceDiv, Nat.reduceAdd, Nat.reduceSub, Nat.reduceMul]

/-- Value of the C2 read before slicing: the sub-range extractor
applied to the concatenated block run. -/
theorem read_blocks_value (f : Nat → Nat) (X Y : Nat) :
    (SparseBlockReader.readBlocks
      ⟨512, 3,
       fun i => if i = 0 then .At X else if i = 1 then .Empty else .At Y,
       f⟩ 0 3).map
      (fun bs => (bs.drop 256).take 1024) =
    .ok (((((List.range 512).map (fun k => f (X + k)) ++
            (List.replicate 512 0 ++
             ((List.range 512).map (fun k => f (Y + k)) ++ []))).drop
           256).take 1024)) := by
  rw [readBlocks_three f X Y, except_map_ok]

/-- Slicing [256, 1280) out of three concatenated 512-byte blocks
yields the tail of the first, all of the second, and the head of the
third. -/
theorem slice_three (B0 B1 B2 : List Nat) (l0 : B0.length = 512)
    (l1 : B1.length = 512) :
    ((B0 ++ (B1 ++ (B2 ++ []))).drop 256).take 1024 =
      B0.drop 256 ++ B1 ++ B2.take 256 := by
  simp [List.drop_append_eq_append_drop, List.take_append_eq_append_take,
    List.take_of_length_le, l0, l1]

/-- C2: for a SparseBlockReader whose block map resolves blocks 0, 1, 2
to `At X`, `Empty`, `At Y` with `block_size = 512`, reading the logical
range [256, 1280) returns exactly 1024 bytes — the last 256 bytes of
the physical block at `X`, then 512 zero bytes synthesized for the
`Empty` block (independently of the backing store, which the `Empty`
branch never consults), then the first 256 bytes of the physical block
at `Y`, in that order. -/
theorem sparse_read_spec (f : Nat → Nat) (X Y : Nat) :
    SparseBlockReader.read
      ⟨512, 3,
       fun i => if i = 0 then .At X else if i = 1 then .Empty else .At Y,
       f⟩ 256 1024 =
    .ok (((List.range 512).map (fun k => f (X + k))).drop 256 ++
         List.replicate 512 0 ++
         ((List.range 512).map (fun k => f (Y + k))).take 256) :=
  (read_decompose f X Y).trans ((read_touched f X Y).trans
    ((read_blocks_value f X Y).trans
      (congrArg Except.ok
        (slice_three _ _ _
          (by rw [List.length_map, List.length_range])
          (List.length_replicate 512 0)))))

/-- Helper for the sparse reader: a run of `k >= 1` consecutive blocks
starting at `i` whose index range reaches `block_count` fails as a
whole with `InvalidBlock`. -/
theorem readBlocks_past_count (r : SparseBlockReader) :
    ∀ k i, 0 < k → r.block_count < i + k →
      r.readBlocks i k = .error .InvalidBlock := by
  intro k
  induction k with
  | zero =>
    intro i h
    exact absurd h (by omega)
  | succ k ih =>
    intro i _ hik
    by_cases hi : i < r.block_count
    · have hk : 0 < k := by omega
      have hik2 : r.block_count < (i + 1) + k := by omega
      cases hm : r.map i with
      | Missing =>
        simp [SparseBlockReader.readBlocks, SparseBlockReader.blockBytes,
          SparseBlockReader.resolve, hi, hm]
      | Empty =>
        simp [SparseBlockReader.readBlocks, SparseBlockReader.blockBytes,
          SparseBlockReader.resolve, hi, hm, ih (i + 1) hk hik2]
      | At p =>
        simp [SparseBlockReader.readBlocks, SparseBlockReader.blockBytes,
          SparseBlockReader.resolve, hi, hm, ih (i + 1) hk hik2]
    · simp [SparseBlockReader.readBlocks, SparseBlockReader.blockBytes,
        SparseBlockReader.resolve, hi]

/-- C3: resolving the logical block index `block_count` (one past the
last valid index) yields `Missing`, and every read whose touched block
range `[first, last]` includes that index fails as a whole with
`InvalidBlock` rather than returning partial data. -/
theorem sparse_invalid_block_spec (r : SparseBlockReader) (offset n : Nat)
    (hn : 0 < n)
    (h1 : offset / r.block_size ≤ r.block_count)
    (h2 : r.block_count ≤ (offset + n - 1) / r.block_size) :
    r.resolve r.block_count = .Missing ∧
    r.read offset n = .error .InvalidBlock := by
  refine ⟨by simp [SparseBlockReader.resolve], ?_⟩
  have hn0 : ¬ n = 0 := by omega
  have hb := readBlocks_past_count r
    ((offset + n - 1) / r.block_size - offset / r.block_size + 1)
    (offset / r.block_size) (by omega) (by omega)
  simp [SparseBlockReader.read, hn0, hb, except_map_error]

/-- Witness for `sparse_invalid_block_spec`: a 3-block reader of
512-byte blocks, asked for the range [0, 2048) which touches block 3.
-/
theorem sparse_invalid_block_spec_witness :
    SparseBlockReader.resolve ⟨512, 3, fun _ => .Empty, fun _ => 0⟩ 3 =
      .Missing ∧
    SparseBlockReader.read ⟨512, 3, fun _ => .Empty, fun _ => 0⟩ 0 2048 =
      .error .InvalidBlock :=
  sparse_invalid_block_spec ⟨512, 3, fun _ => .Empty, fun _ => 0⟩ 0 2048
    (by decide) (by decide) (by decide)

/-- Witness for `getc_ungetc_spec` at a concrete open file positioned
at 0. -/
theorem getc_ungetc_spec_witness :
    let f : RpFile :=
      { file := some ⟨[42, 43], 0⟩, mode := FM_OPEN_READ, gzfd := none,
        gzsz := -1, lastError := 0 }
    (((f.getc).2).ungetc).1 = 0 ∧
    (((((f.getc).2).ungetc).2).tell).1 = 0 ∧
    ((((((f.getc).2).ungetc).2)).getc).1 = (f.getc).1 ∧
    (f.ungetc).1 = -1 ∧
    (f.ungetc).2 = f :=
  getc_ungetc_spec _ ⟨[42, 43], 0⟩ (by decide) (by decide) (by decide)

end RomProps
